import Mathlib

/-!
Verification of the SAS (storage selection) function evaluators of
`rsas/_rsas_functions.py`.

Each Python variant class is embedded as a Lean structure holding the
per-timestep parameter vectors that its `__init__` stores (rows of the
parameter matrix become functions `ℕ → ℝ`), and its methods become Lean
functions on that structure.  numpy float arithmetic is idealised as real
arithmetic; the gamma variant allows an infinite `ST_max`, so that column is
embedded as `EReal`.  scipy special functions are embedded by their
mathematical definitions (`gammainc` as the regularized lower incomplete
gamma integral, `erfc` via the error-function integral), and scipy
`gammaincinv` as a choice of nonnegative preimage of `gammainc`.
Where the code can signal errors (the lookup-table interpolator with
`bounds_error=True`, the lookup constructor check, Python method
resolution), the embedding returns `Option` / explicit outcome values.
-/

namespace RSAS

open Real MeasureTheory Set Filter Topology

/-- Regularized lower incomplete gamma, numerator: `∫ 0..x exp (-t) t^(a-1)`,
the integrand written as in `Real.Gamma_eq_integral`.  This embeds
`scipy.special.gammainc` (before division by `Γ a`). -/
noncomputable def lowerGamma (a x : ℝ) : ℝ :=
  ∫ t in (0:ℝ)..x, Real.exp (-t) * t ^ (a - 1)

/-- Embedding of `scipy.special.gammainc a x`: the regularized lower
incomplete gamma function. -/
noncomputable def gammainc (a x : ℝ) : ℝ :=
  lowerGamma a x / Real.Gamma a

open Classical in
/-- Embedding of `scipy.special.gammaincinv a p`: some nonnegative `x` with
`gammainc a x = p` when one exists (scipy documents it as the inverse of
`gammainc` with respect to `x`). -/
noncomputable def gammaincinv (a p : ℝ) : ℝ :=
  if h : ∃ x, 0 ≤ x ∧ gammainc a x = p then h.choose else 0

/-- The error function, embedding the mathematical definition behind
`scipy.special.erfc`. -/
noncomputable def erf (x : ℝ) : ℝ :=
  2 / Real.sqrt Real.pi * ∫ t in (0:ℝ)..x, Real.exp (-(t ^ 2))

/-- Embedding of `scipy.special.erfc`. -/
noncomputable def erfc (x : ℝ) : ℝ := 1 - erf x

/-- A float-like value: a finite real, one of the two infinities produced by
saturating operations such as `np.inf`, or the NaN sentinel `np.nan`.  Used
to embed `_gamma_rSAS.invcdf_i`, whose branches return `np.inf` and
`np.nan`. -/
inductive FloatE where
  | fin (x : ℝ)
  | posInf
  | negInf
  | nan

/-- Division of a float-like value by a finite real, as IEEE float division
behaves on the cases the code reaches (finite/inf/nan numerator). -/
noncomputable def FloatE.divR : FloatE → ℝ → FloatE
  | .fin x, c => .fin (x / c)
  | .posInf, c => if c < 0 then .negInf else .posInf
  | .negInf, c => if c < 0 then .posInf else .negInf
  | .nan, _ => .nan

/-- Addition of a finite real to a float-like value, as IEEE float addition
behaves on these cases. -/
def FloatE.addR : FloatE → ℝ → FloatE
  | .fin x, c => .fin (x + c)
  | .posInf, _ => .posInf
  | .negInf, _ => .negInf
  | .nan, _ => .nan

/-! ## The uniform variant `_uniform_rSAS` -/

/-- State of a `_uniform_rSAS` instance after `__init__`: the two parameter
columns, one value per timestep. -/
structure _uniform_rSAS where
  ST_min : ℕ → ℝ
  ST_max : ℕ → ℝ

/-- `self.lam = 1.0/(self.ST_max-self.ST_min)`, precomputed in
`_uniform_rSAS.__init__`. -/
noncomputable def _uniform_rSAS.lam (f : _uniform_rSAS) (i : ℕ) : ℝ :=
  1 / (f.ST_max i - f.ST_min i)

/-- `_uniform_rSAS.cdf_i`:
`np.where(ST < self.ST_max[i], np.where(ST > self.ST_min[i], self.lam[i] * (ST - self.ST_min[i]), 0.), 1.)`,
elementwise over the query array, so stated for one scalar query. -/
noncomputable def _uniform_rSAS.cdf_i (f : _uniform_rSAS) (ST : ℝ) (i : ℕ) : ℝ :=
  if ST < f.ST_max i then (if ST > f.ST_min i then f.lam i * (ST - f.ST_min i) else 0) else 1

/-- `_uniform_rSAS.cdf_all`: the same formula with row `i` of the query
array evaluated against row `i` of the parameters. -/
noncomputable def _uniform_rSAS.cdf_all (f : _uniform_rSAS) (ST : ℕ → ℝ) : ℕ → ℝ :=
  fun i => if ST i < f.ST_max i then (if ST i > f.ST_min i then f.lam i * (ST i - f.ST_min i) else 0) else 1

/-- `_uniform_rSAS.invcdf_i`:
`np.where(P < 1, np.where(P > 0, P, 0.), 1.)/self.lam[i] + self.ST_min[i]`. -/
noncomputable def _uniform_rSAS.invcdf_i (f : _uniform_rSAS) (P : ℝ) (i : ℕ) : ℝ :=
  (if P < 1 then (if P > 0 then P else 0) else 1) / f.lam i + f.ST_min i

/-! ## The Kumaraswamy variant `_kumaraswami_rSAS` -/

/-- State of a `_kumaraswami_rSAS` instance after `__init__`: the four
parameter columns. -/
structure _kumaraswami_rSAS where
  ST_min : ℕ → ℝ
  ST_max : ℕ → ℝ
  a : ℕ → ℝ
  b : ℕ → ℝ

/-- `_kumaraswami_rSAS.cdf_i`: outer `np.where(self.ST_max[i]>=self.ST_min[i], ...)`
chooses between the normal branch (clamp to 1 above `ST_max`) and the
swapped branch used for an inverted range (no upper clamp).  `**` is real
(rpow) exponentiation. -/
noncomputable def _kumaraswami_rSAS.cdf_i (f : _kumaraswami_rSAS) (ST : ℝ) (i : ℕ) : ℝ :=
  if f.ST_max i ≥ f.ST_min i then
    (if ST > f.ST_min i then
      (if ST < f.ST_max i then
        1 - (1 - ((ST - f.ST_min i) / (f.ST_max i - f.ST_min i)) ^ f.a i) ^ f.b i
      else 1)
    else 0)
  else
    (if ST > f.ST_min i then
      1 - (1 - ((ST - f.ST_min i) / (f.ST_max i - f.ST_min i)) ^ f.a i) ^ f.b i
    else 0)

/-- `_kumaraswami_rSAS.cdf_all`: the same formula with row `i` of the query
array against row `i` of the parameters. -/
noncomputable def _kumaraswami_rSAS.cdf_all (f : _kumaraswami_rSAS) (ST : ℕ → ℝ) : ℕ → ℝ :=
  fun i =>
    if f.ST_max i ≥ f.ST_min i then
      (if ST i > f.ST_min i then
        (if ST i < f.ST_max i then
          1 - (1 - ((ST i - f.ST_min i) / (f.ST_max i - f.ST_min i)) ^ f.a i) ^ f.b i
        else 1)
      else 0)
    else
      (if ST i > f.ST_min i then
        1 - (1 - ((ST i - f.ST_min i) / (f.ST_max i - f.ST_min i)) ^ f.a i) ^ f.b i
      else 0)

/-! ## The inverse-Gaussian variant `_invgauss_rSAS` -/

/-- State of a `_invgauss_rSAS` instance after `__init__` (`self.mu` is the
first shape column of `params[:,2:]`). -/
structure _invgauss_rSAS where
  loc : ℕ → ℝ
  scale : ℕ → ℝ
  mu : ℕ → ℝ

/-- `_invgauss_rSAS.cdf_i`: with `x = (ST - self.loc[i]) / self.scale[i]`,
`(erfc((-x + mu)/(sqrt(2*x)*mu)) + exp(2/mu)*erfc((x + mu)/(sqrt(2*x)*mu)))/2`.
For `x < 0`, numpy `sqrt` yields NaN and the result is NaN (hence never 0);
the Mathlib idealisation (`sqrt` of a negative is 0, division by 0 is 0)
yields `(1 + exp (2/mu))/2`, likewise never 0. -/
noncomputable def _invgauss_rSAS.cdf_i (f : _invgauss_rSAS) (ST : ℝ) (i : ℕ) : ℝ :=
  (erfc ((-((ST - f.loc i) / f.scale i) + f.mu i) /
      (Real.sqrt (2 * ((ST - f.loc i) / f.scale i)) * f.mu i)) +
    Real.exp (2 / f.mu i) *
      erfc ((((ST - f.loc i) / f.scale i) + f.mu i) /
        (Real.sqrt (2 * ((ST - f.loc i) / f.scale i)) * f.mu i))) / 2

/-! ## The gamma variant `_gamma_rSAS` -/

/-- State of a `_gamma_rSAS` instance after `__init__`.  The `ST_max` column
may hold `np.inf`, so it is embedded as `EReal`. -/
structure _gamma_rSAS where
  ST_min : ℕ → ℝ
  ST_max : ℕ → EReal
  scale : ℕ → ℝ
  a : ℕ → ℝ

/-- `self.lam = 1.0/self.scale`, precomputed in `_gamma_rSAS.__init__`. -/
noncomputable def _gamma_rSAS.lam (f : _gamma_rSAS) (i : ℕ) : ℝ :=
  1 / f.scale i

open Classical in
/-- `self.rescale = np.where(np.isfinite(self.ST_max), 1/(gammainc(self.a, self.lam*(self.ST_max-self.ST_min))), 1.)`,
precomputed per timestep in `_gamma_rSAS.__init__` from the parameters
only. -/
noncomputable def _gamma_rSAS.rescale (f : _gamma_rSAS) (i : ℕ) : ℝ :=
  if f.ST_max i ≠ ⊤ ∧ f.ST_max i ≠ ⊥ then
    1 / gammainc (f.a i) (f.lam i * ((f.ST_max i).toReal - f.ST_min i))
  else 1

/-- `_gamma_rSAS.cdf_i`:
`np.where(ST>self.ST_min[i], np.where(ST<self.ST_max[i], gammainc(self.a[i], self.lam[i]*(ST-self.ST_min[i]))*self.rescale[i], 1.), 0.)`. -/
noncomputable def _gamma_rSAS.cdf_i (f : _gamma_rSAS) (ST : ℝ) (i : ℕ) : ℝ :=
  if ST > f.ST_min i then
    (if (ST : EReal) < f.ST_max i then
      gammainc (f.a i) (f.lam i * (ST - f.ST_min i)) * f.rescale i
    else 1)
  else 0

/-- `_gamma_rSAS.cdf_all`: the same formula, row `i` of the query array
against row `i` of the parameters. -/
noncomputable def _gamma_rSAS.cdf_all (f : _gamma_rSAS) (ST : ℕ → ℝ) : ℕ → ℝ :=
  fun i =>
    if ST i > f.ST_min i then
      (if (ST i : EReal) < f.ST_max i then
        gammainc (f.a i) (f.lam i * (ST i - f.ST_min i)) * f.rescale i
      else 1)
    else 0

/-- `_gamma_rSAS.invcdf_i`:
`np.where(P>0, np.where(P<1, gammaincinv(self.a[i], P/self.rescale[i]), np.inf), np.nan)/self.lam[i] + self.ST_min[i]`. -/
noncomputable def _gamma_rSAS.invcdf_i (f : _gamma_rSAS) (P : ℝ) (i : ℕ) : FloatE :=
  FloatE.addR
    (FloatE.divR
      (if P > 0 then
        (if P < 1 then FloatE.fin (gammaincinv (f.a i) (P / f.rescale i)) else FloatE.posInf)
      else FloatE.nan)
      (f.lam i))
    (f.ST_min i)

/-! ## The lookup-table variant `_lookup_rSAS` -/

/-- State of a `_lookup_rSAS` instance after `__init__`: the breakpoint
column `S_T = params[:,0]` and probability column `Omega = params[:,1]`,
shared by every timestep. -/
structure _lookup_rSAS where
  S_T : List ℝ
  Omega : List ℝ

/-- `self.ST_min = self.S_T[0]`. -/
noncomputable def _lookup_rSAS.ST_min (f : _lookup_rSAS) : ℝ := f.S_T.headD 0

/-- `self.ST_max = self.S_T[-1]`. -/
noncomputable def _lookup_rSAS.ST_max (f : _lookup_rSAS) : ℝ := f.S_T.getLastD 0

open Classical in
/-- The constructor check of `_lookup_rSAS.__init__`:
`if not (self.Omega[0]==0 and self.Omega[-1]==1): raise ValueError(...)`.
`none` is the raised invalid-lookup-table `ValueError`. -/
noncomputable def _lookup_rSAS.build (sT Omega : List ℝ) : Option _lookup_rSAS :=
  if Omega.head? = some 0 ∧ Omega.getLast? = some 1 then some ⟨sT, Omega⟩ else none

/-- `scipy.interpolate.interp1d(S_T, Omega, kind='linear', bounds_error=True)`
as a function on the zipped breakpoint list, assumed sorted: piecewise
linear interpolation, `none` (a raised `ValueError`) for queries outside
the breakpoint range instead of extrapolation. -/
noncomputable def interpL : List (ℝ × ℝ) → ℝ → Option ℝ
  | [], _ => none
  | [p], x => if x = p.1 then some p.2 else none
  | p :: q :: rest, x =>
    if x < p.1 then none
    else if x ≤ q.1 then some (p.2 + (x - p.1) * (q.2 - p.2) / (q.1 - p.1))
    else interpL (q :: rest) x

/-- The shared body of `_lookup_rSAS.cdf_all` and `_lookup_rSAS.cdf_i`:
`self.interp1d(np.where(ST < self.ST_max, np.where(ST > self.ST_min, ST, 0.), 1.))`
on one query element. -/
noncomputable def _lookup_rSAS.evalClamped (f : _lookup_rSAS) (ST : ℝ) : Option ℝ :=
  interpL (f.S_T.zip f.Omega) (if ST < f.ST_max then (if ST > f.ST_min then ST else 0) else 1)

/-- `_lookup_rSAS.cdf_all`, elementwise over the query array. -/
noncomputable def _lookup_rSAS.cdf_all (f : _lookup_rSAS) (ST : ℕ → ℝ) : ℕ → Option ℝ :=
  fun k => f.evalClamped (ST k)

/-- `_lookup_rSAS.cdf_i`: its body is identical to `cdf_all` and never
consults the timestep argument `i`. -/
noncomputable def _lookup_rSAS.cdf_i (f : _lookup_rSAS) (ST : ℕ → ℝ) (_i : ℕ) : ℕ → Option ℝ :=
  fun k => f.evalClamped (ST k)

/-! ## Python method resolution on the class hierarchy

`rSASFunctionClass` defines `__init__`, `cdf_all` and `cdf_i`, each raising
`NotImplementedError`; it defines no `invcdf_i`.  Each subclass overrides
some of these.  Invoking a method therefore yields: a real implementation if
the subclass defines it, `NotImplementedError` if only the base fallback
exists, and `AttributeError` if no class in the hierarchy defines it. -/

/-- The four method names appearing in the module. -/
inductive PyMethod where
  | init
  | cdf_all
  | cdf_i
  | invcdf_i
deriving DecidableEq

/-- Which methods a class body itself defines. -/
structure PyClassDef where
  defines : PyMethod → Bool

/-- Outcome of invoking a method on an instance of a subclass of
`rSASFunctionClass`. -/
inductive CallOutcome where
  | implemented
  | notImplementedError
  | attributeError
deriving DecidableEq

/-- Methods defined by the base class `rSASFunctionClass` (each of them only
raises `NotImplementedError`): `__init__`, `cdf_all`, `cdf_i`. -/
def rSASFunctionClass : PyClassDef :=
  ⟨fun m => match m with
    | .init => true
    | .cdf_all => true
    | .cdf_i => true
    | .invcdf_i => false⟩

/-- Python method resolution for a subclass `c` of `rSASFunctionClass`. -/
def callMethod (c : PyClassDef) (m : PyMethod) : CallOutcome :=
  if c.defines m then .implemented
  else if rSASFunctionClass.defines m then .notImplementedError
  else .attributeError

/-- Methods defined in the body of `_uniform_rSAS`. -/
def uniformClass : PyClassDef :=
  ⟨fun m => match m with
    | .init => true
    | .cdf_all => true
    | .cdf_i => true
    | .invcdf_i => true⟩

/-- Methods defined in the body of `_kumaraswami_rSAS` (no `invcdf_i`). -/
def kumaraswamiClass : PyClassDef :=
  ⟨fun m => match m with
    | .init => true
    | .cdf_all => true
    | .cdf_i => true
    | .invcdf_i => false⟩

/-- Methods defined in the body of `_gamma_rSAS`. -/
def gammaClass : PyClassDef :=
  ⟨fun m => match m with
    | .init => true
    | .cdf_all => true
    | .cdf_i => true
    | .invcdf_i => true⟩

/-- Methods defined in the body of `_invgauss_rSAS` (only `__init__` and
`cdf_i`). -/
def invgaussClass : PyClassDef :=
  ⟨fun m => match m with
    | .init => true
    | .cdf_all => false
    | .cdf_i => true
    | .invcdf_i => false⟩

/-- Methods defined in the body of `_stats_rSAS`, the generic catalog-backed
variant (its `cdf_all` is commented out in the source). -/
def statsClass : PyClassDef :=
  ⟨fun m => match m with
    | .init => true
    | .cdf_all => false
    | .cdf_i => true
    | .invcdf_i => false⟩

/-- Methods defined in the body of `_lookup_rSAS` (no `invcdf_i`). -/
def lookupClass : PyClassDef :=
  ⟨fun m => match m with
    | .init => true
    | .cdf_all => true
    | .cdf_i => true
    | .invcdf_i => false⟩

/-! ## Theorems -/

/-- C9, counterexample: the claim says `invcdf_i` on a variant without
closed-form inversion raises the not-implemented error; in the code the
base class `rSASFunctionClass` defines no `invcdf_i` at all, so the call on
`_kumaraswami_rSAS` raises `AttributeError`, not `NotImplementedError`. -/
theorem invcdf_missing_attribute :
    callMethod kumaraswamiClass PyMethod.invcdf_i = CallOutcome.attributeError ∧
    callMethod kumaraswamiClass PyMethod.invcdf_i ≠ CallOutcome.notImplementedError := by
  decide

/-- C9, amended: `cdf_all` on the invgauss and generic catalog-backed
variants falls back to the base-class method and raises
`NotImplementedError`; `invcdf_i` on the variants without closed-form
inversion (kumaraswami, invgauss, generic, lookuptable) instead raises
`AttributeError`, because no class in the hierarchy defines it; uniform
and gamma implement `invcdf_i` themselves. -/
theorem method_dispatch_errors :
    callMethod invgaussClass PyMethod.cdf_all = CallOutcome.notImplementedError ∧
    callMethod statsClass PyMethod.cdf_all = CallOutcome.notImplementedError ∧
    callMethod kumaraswamiClass PyMethod.invcdf_i = CallOutcome.attributeError ∧
    callMethod invgaussClass PyMethod.invcdf_i = CallOutcome.attributeError ∧
    callMethod statsClass PyMethod.invcdf_i = CallOutcome.attributeError ∧
    callMethod lookupClass PyMethod.invcdf_i = CallOutcome.attributeError ∧
    callMethod uniformClass PyMethod.invcdf_i = CallOutcome.implemented ∧
    callMethod gammaClass PyMethod.invcdf_i = CallOutcome.implemented := by
  decide

/-- C10: for the lookuptable variant, `cdf_i` never consults the timestep
index: for every query array and every pair of indices the results agree,
and both equal `cdf_all` on the same array. -/
theorem lookup_cdf_index_independent (f : _lookup_rSAS) (ST : ℕ → ℝ) (i j : ℕ) :
    f.cdf_i ST i = f.cdf_i ST j ∧ f.cdf_i ST i = f.cdf_all ST :=
  ⟨rfl, rfl⟩

/-- C7: `invcdf_i` is total (never raises) on out-of-domain `P`: the gamma
variant returns `+inf` for every `P ≥ 1` (given a positive scale parameter)
and the NaN sentinel for every `P < 0`, while the uniform variant clamps
`P < 0` to 0 and returns the finite value `ST_min`. -/
theorem invcdf_out_of_domain_sentinels :
    (∀ (f : _gamma_rSAS) (P : ℝ) (i : ℕ), 0 < f.scale i → 1 ≤ P →
      f.invcdf_i P i = FloatE.posInf) ∧
    (∀ (f : _gamma_rSAS) (P : ℝ) (i : ℕ), P < 0 → f.invcdf_i P i = FloatE.nan) ∧
    (∀ (f : _uniform_rSAS) (P : ℝ) (i : ℕ), P < 0 → f.invcdf_i P i = f.ST_min i) := by
  refine ⟨fun f P i hs hP => ?_, fun f P i hP => ?_, fun f P i hP => ?_⟩
  · have hlam : 0 < f.lam i := by
      unfold _gamma_rSAS.lam; positivity
    unfold _gamma_rSAS.invcdf_i
    rw [if_pos (by linarith), if_neg (by linarith)]
    simp [FloatE.divR, FloatE.addR, not_lt.mpr hlam.le]
  · unfold _gamma_rSAS.invcdf_i
    rw [if_neg (by simp; linarith)]
    simp [FloatE.divR, FloatE.addR]
  · unfold _uniform_rSAS.invcdf_i
    rw [if_pos (by linarith), if_neg (by simp; linarith)]
    simp

/-- Witness for C7 at concrete inputs: gamma parameters
`ST_min = 0, ST_max = ∞, scale = 1, a = 1` with `P = 2` and `P = -1`, and a
uniform instance with `ST_min = 0, ST_max = 1` at `P = -1`. -/
theorem invcdf_out_of_domain_sentinels_witness :
    (0:ℝ) < 1 ∧ (1:ℝ) ≤ 2 ∧ (-1:ℝ) < 0 ∧
    (⟨fun _ => 0, fun _ => ⊤, fun _ => 1, fun _ => 1⟩ : _gamma_rSAS).invcdf_i 2 0 =
      FloatE.posInf ∧
    (⟨fun _ => 0, fun _ => ⊤, fun _ => 1, fun _ => 1⟩ : _gamma_rSAS).invcdf_i (-1) 0 =
      FloatE.nan ∧
    (⟨fun _ => 0, fun _ => 1⟩ : _uniform_rSAS).invcdf_i (-1) 0 = 0 :=
  ⟨one_pos, one_le_two, neg_one_lt_zero,
    invcdf_out_of_domain_sentinels.1 _ 2 0 one_pos one_le_two,
    invcdf_out_of_domain_sentinels.2.1 _ (-1) 0 neg_one_lt_zero,
    invcdf_out_of_domain_sentinels.2.2 _ (-1) 0 neg_one_lt_zero⟩

/-- C8: the lookuptable constructor fails with the invalid-lookup-table
`ValueError` exactly when the probability column does not start at 0 or end
at 1; in particular `Omega = [0.2, 0.5, 1.0]` fails and exact endpoints 0
and 1 succeed. -/
theorem lookup_build_endpoint_check :
    (∀ (sT Omega : List ℝ),
      (_lookup_rSAS.build sT Omega).isNone ↔
        ¬(Omega.head? = some 0 ∧ Omega.getLast? = some 1)) ∧
    _lookup_rSAS.build [0, 5, 10] [0.2, 0.5, 1] = none ∧
    (_lookup_rSAS.build [0, 5, 10] [0, 0.5, 1]).isSome = true := by
  refine ⟨fun sT Omega => ?_, ?_, ?_⟩
  · by_cases h : Omega.head? = some 0 ∧ Omega.getLast? = some 1 <;>
      simp [_lookup_rSAS.build, h]
  · rw [_lookup_rSAS.build, if_neg]
    rintro ⟨h0, -⟩
    rw [show ([0.2, 0.5, 1] : List ℝ).head? = some 0.2 from rfl] at h0
    exact absurd (Option.some.injEq _ _ ▸ h0) (by norm_num)
  · rw [_lookup_rSAS.build, if_pos ⟨rfl, rfl⟩]
    rfl

/-- Helper: on a strictly sorted list the head is at most the last element
(`getLastD` with any default). -/
theorem chain_head_le_last : ∀ (l : List ℝ) (x d : ℝ),
    l.Chain' (· < ·) → l.head? = some x → x ≤ l.getLastD d
  | [], x, _, _, hh => by simp at hh
  | [y], x, d, _, hh => by
      obtain rfl : x = y := by simpa using hh.symm
      simp
  | y :: z :: t, x, d, hc, hh => by
      obtain rfl : x = y := by simpa using hh.symm
      have h1 : x < z := (List.chain'_cons.mp hc).1
      have h2 : z ≤ (z :: t).getLastD d :=
        chain_head_le_last (z :: t) z d (List.chain'_cons.mp hc).2 rfl
      exact le_trans h1.le h2

/-- Helper: on a breakpoint list sorted strictly by abscissa, the first
abscissa is at most the last. -/
theorem chain_fst_head_le_last : ∀ (pts : List (ℝ × ℝ)) (p0 pN : ℝ × ℝ),
    pts.Chain' (fun p q => p.1 < q.1) → pts.head? = some p0 →
    pts.getLast? = some pN → p0.1 ≤ pN.1
  | [], _, _, _, hh, _ => by simp at hh
  | [q], p0, pN, _, hh, hN => by
      obtain rfl : p0 = q := by simpa using hh.symm
      obtain rfl : pN = p0 := by simpa using hN.symm
      exact le_refl _
  | q :: r :: t, p0, pN, hc, hh, hN => by
      obtain rfl : p0 = q := by simpa using hh.symm
      have h1 : p0.1 < r.1 := (List.chain'_cons.mp hc).1
      have hN' : (r :: t).getLast? = some pN := by
        rw [← List.getLast?_cons_cons]; exact hN
      have h2 : r.1 ≤ pN.1 :=
        chain_fst_head_le_last (r :: t) r pN (List.chain'_cons.mp hc).2 rfl hN'
      exact le_trans h1.le h2

/-- Helper: interpolating a sorted table exactly at the first breakpoint
returns the first ordinate. -/
theorem interpL_zip_head (sT om : List ℝ) (x0 y0 : ℝ)
    (hsT : sT.head? = some x0) (hom : om.head? = some y0)
    (hc : sT.Chain' (· < ·)) :
    interpL (sT.zip om) x0 = some y0 := by
  cases sT with
  | nil => simp at hsT
  | cons x0' rest =>
    obtain rfl : x0 = x0' := by simpa using hsT.symm
    cases om with
    | nil => simp at hom
    | cons y0' orest =>
      obtain rfl : y0 = y0' := by simpa using hom.symm
      cases rest with
      | nil => simp [interpL]
      | cons s2 r2 =>
        cases orest with
        | nil => simp [interpL]
        | cons w2 o2 =>
          have hx : x0 < s2 := (List.chain'_cons.mp hc).1
          show interpL ((x0, y0) :: (s2, w2) :: r2.zip o2) x0 = some y0
          simp only [interpL]
          rw [if_neg (lt_irrefl x0), if_pos hx.le]
          simp

/-- Helper: the interpolator reports a bounds error (`none`) strictly below
the first breakpoint. -/
theorem interpL_below_head (pts : List (ℝ × ℝ)) (x : ℝ) (p0 : ℝ × ℝ)
    (hh : pts.head? = some p0) (hx : x < p0.1) : interpL pts x = none := by
  cases pts with
  | nil => simp at hh
  | cons q t =>
    obtain rfl : p0 = q := by simpa using hh.symm
    cases t with
    | nil => simp [interpL, ne_of_lt hx]
    | cons r t2 =>
      simp only [interpL]
      rw [if_pos hx]

/-- Helper: the interpolator reports a bounds error (`none`) strictly above
the last breakpoint of a sorted table. -/
theorem interpL_above_last : ∀ (pts : List (ℝ × ℝ)) (x : ℝ) (pN : ℝ × ℝ),
    pts.Chain' (fun p q => p.1 < q.1) → pts.getLast? = some pN → pN.1 < x →
    interpL pts x = none
  | [], _, _, _, hN, _ => by simp at hN
  | [q], x, pN, _, hN, hx => by
      obtain rfl : pN = q := by simpa using hN.symm
      simp [interpL, ne_of_gt hx]
  | q :: r :: t, x, pN, hc, hN, hx => by
      have hrt := (List.chain'_cons.mp hc).2
      have hN' : (r :: t).getLast? = some pN := by
        rw [← List.getLast?_cons_cons]; exact hN
      have hr : r.1 ≤ pN.1 := chain_fst_head_le_last (r :: t) r pN hrt rfl hN'
      by_cases h1 : x < q.1
      · simp only [interpL]; rw [if_pos h1]
      · by_cases h2 : x ≤ r.1
        · exact absurd hx (not_lt.mpr (h2.trans hr))
        · simp only [interpL]
          rw [if_neg h1, if_neg h2]
          exact interpL_above_last (r :: t) x pN hrt hN' hx

/-- C5, counterexample: with the valid table `S_T = [2, 3]`,
`Omega = [0, 1]` (endpoints 0 and 1, sorted breakpoints), a query below
`S_T[0]` is clamped to the input 0, which lies outside the breakpoint
range, so interpolation raises the bounds error (`none`) instead of
yielding the left-edge value `Omega[0] = 0`. -/
theorem lookup_clamp_out_of_table :
    (⟨[2, 3], [0, 1]⟩ : _lookup_rSAS).cdf_i (fun _ => 1) 0 0 = none ∧
    (⟨[2, 3], [0, 1]⟩ : _lookup_rSAS).cdf_i (fun _ => 1) 0 0 ≠ some 0 := by
  have h : (⟨[2, 3], [0, 1]⟩ : _lookup_rSAS).cdf_i (fun _ => 1) 0 0 = none := by
    show (⟨[2, 3], [0, 1]⟩ : _lookup_rSAS).evalClamped 1 = none
    unfold _lookup_rSAS.evalClamped
    show interpL (([2, 3] : List ℝ).zip ([0, 1] : List ℝ))
      (if (1:ℝ) < 3 then (if (1:ℝ) > 2 then 1 else 0) else 1) = none
    rw [if_pos (show (1:ℝ) < (3:ℝ) by norm_num),
      if_neg (show ¬((1:ℝ) > (2:ℝ)) by norm_num)]
    show interpL [((2:ℝ), (0:ℝ)), (3, 1)] 0 = none
    simp only [interpL]
    rw [if_pos (show (0:ℝ) < 2 by norm_num)]
  exact ⟨h, by rw [h]; simp⟩

/-- C5, amended: a query below `S_T[0]` (and below `S_T[-1]`) is replaced
by the clamped input 0 before interpolation; this yields the left-edge
value `Omega[0] = 0` when the table starts at `S_T[0] = 0` (below the
breakpoint range the interpolator instead raises a bounds error, never
extrapolating); a query at or above `S_T[-1]` is replaced by the clamped
input 1 before interpolation. -/
theorem lookup_clamp_behavior :
    (∀ (f : _lookup_rSAS) (ST : ℕ → ℝ) (i k : ℕ),
      ST k < f.ST_min → ST k < f.ST_max →
        f.cdf_i ST i k = interpL (f.S_T.zip f.Omega) 0) ∧
    (∀ (f : _lookup_rSAS) (ST : ℕ → ℝ) (i k : ℕ),
      f.S_T.head? = some 0 → f.Omega.head? = some 0 → f.S_T.Chain' (· < ·) →
      ST k < 0 → f.cdf_i ST i k = some 0) ∧
    (∀ (f : _lookup_rSAS) (ST : ℕ → ℝ) (i k : ℕ),
      f.ST_max ≤ ST k → f.cdf_i ST i k = interpL (f.S_T.zip f.Omega) 1) ∧
    (∀ (pts : List (ℝ × ℝ)) (x : ℝ) (p0 : ℝ × ℝ),
      pts.head? = some p0 → x < p0.1 → interpL pts x = none) ∧
    (∀ (pts : List (ℝ × ℝ)) (x : ℝ) (pN : ℝ × ℝ),
      pts.Chain' (fun p q => p.1 < q.1) → pts.getLast? = some pN → pN.1 < x →
      interpL pts x = none) := by
  refine ⟨fun f ST i k hmin hmax => ?_, fun f ST i k h0 hom hc hST => ?_,
    fun f ST i k h => ?_, interpL_below_head, interpL_above_last⟩
  · show f.evalClamped (ST k) = interpL (f.S_T.zip f.Omega) 0
    unfold _lookup_rSAS.evalClamped
    rw [if_pos hmax, if_neg (not_lt.mpr hmin.le)]
  · have hmax0 : (0:ℝ) ≤ f.ST_max :=
      chain_head_le_last f.S_T 0 0 hc h0
    have hmin0 : f.ST_min = 0 := by
      unfold _lookup_rSAS.ST_min
      cases hS : f.S_T with
      | nil => rw [hS] at h0; simp at h0
      | cons a t =>
        rw [hS] at h0
        simpa using h0
    show f.evalClamped (ST k) = some 0
    unfold _lookup_rSAS.evalClamped
    rw [if_pos (lt_of_lt_of_le hST hmax0), if_neg (by rw [hmin0]; exact not_lt.mpr hST.le)]
    exact interpL_zip_head f.S_T f.Omega 0 0 h0 hom hc
  · show f.evalClamped (ST k) = interpL (f.S_T.zip f.Omega) 1
    unfold _lookup_rSAS.evalClamped
    rw [if_neg (not_lt.mpr h)]

/-- Witness for C5 at the concrete table `S_T = [0, 1]`, `Omega = [0, 1]`:
a query `-1` below the first breakpoint 0 yields the left-edge value
`some 0`, and a query `5` at or above the last breakpoint is evaluated at
the clamped input 1. -/
theorem lookup_clamp_behavior_witness :
    ((-1:ℝ) < 0) ∧
    (⟨[0, 1], [0, 1]⟩ : _lookup_rSAS).cdf_i (fun _ => -1) 0 0 = some 0 ∧
    ((⟨[0, 1], [0, 1]⟩ : _lookup_rSAS).ST_max ≤ 5) ∧
    (⟨[0, 1], [0, 1]⟩ : _lookup_rSAS).cdf_i (fun _ => 5) 0 0 =
      interpL (([0, 1] : List ℝ).zip ([0, 1] : List ℝ)) 1 :=
  ⟨neg_one_lt_zero,
    lookup_clamp_behavior.2.1 _ _ 0 0 rfl rfl (by simp) neg_one_lt_zero,
    by show (1:ℝ) ≤ 5; norm_num,
    lookup_clamp_behavior.2.2.1 _ _ 0 0 (by show (1:ℝ) ≤ 5; norm_num)⟩

/-- C6, counterexample: the inverted-range Kumaraswamy instance
`ST_min = 1, ST_max = 0, a = 2, b = 1` at `ST = 3` evaluates to 4, outside
`[0, 1]` (numpy computes the same value, since the exponents are
integer-valued). -/
theorem kumaraswami_inverted_exceeds_one :
    (⟨fun _ => 1, fun _ => 0, fun _ => 2, fun _ => 1⟩ : _kumaraswami_rSAS).cdf_i 3 0 = 4 ∧
    ¬((⟨fun _ => 1, fun _ => 0, fun _ => 2, fun _ => 1⟩ : _kumaraswami_rSAS).cdf_i 3 0 ≤ 1) := by
  have h : (⟨fun _ => 1, fun _ => 0, fun _ => 2, fun _ => 1⟩ : _kumaraswami_rSAS).cdf_i 3 0 = 4 := by
    unfold _kumaraswami_rSAS.cdf_i
    dsimp only
    rw [if_neg (by norm_num), if_pos (by norm_num), Real.rpow_one]
    rw [show ((3:ℝ) - 1) / (0 - 1) = -2 by norm_num, Real.rpow_two]
    norm_num
  exact ⟨h, by rw [h]; norm_num⟩

/-- C6, amended: with an inverted range (`ST_max < ST_min`) the swapped
branch clamps to 0 for `ST ≤ ST_min` (hence stays in `[0, 1]` there) and
otherwise evaluates the unclamped Kumaraswamy expression, whose value is
not confined to `[0, 1]` for every `ST`. -/
theorem kumaraswami_inverted_branch (f : _kumaraswami_rSAS) (i : ℕ) (ST : ℝ)
    (hinv : f.ST_max i < f.ST_min i) :
    (ST ≤ f.ST_min i → f.cdf_i ST i = 0 ∧ 0 ≤ f.cdf_i ST i ∧ f.cdf_i ST i ≤ 1) ∧
    (f.ST_min i < ST →
      f.cdf_i ST i =
        1 - (1 - ((ST - f.ST_min i) / (f.ST_max i - f.ST_min i)) ^ f.a i) ^ f.b i) := by
  unfold _kumaraswami_rSAS.cdf_i
  rw [if_neg (not_le.mpr hinv)]
  constructor
  · intro h
    rw [if_neg (not_lt.mpr h)]
    norm_num
  · intro h
    rw [if_pos h]

/-- Witness for C6 at the inverted-range instance
`ST_min = 1, ST_max = 0, a = 2, b = 3` with `ST = 0 ≤ ST_min`. -/
theorem kumaraswami_inverted_branch_witness :
    ((0:ℝ) < 1) ∧ ((0:ℝ) ≤ 1) ∧
    ((⟨fun _ => 1, fun _ => 0, fun _ => 2, fun _ => 3⟩ : _kumaraswami_rSAS).cdf_i 0 0 = 0 ∧
      0 ≤ (⟨fun _ => 1, fun _ => 0, fun _ => 2, fun _ => 3⟩ : _kumaraswami_rSAS).cdf_i 0 0 ∧
      (⟨fun _ => 1, fun _ => 0, fun _ => 2, fun _ => 3⟩ : _kumaraswami_rSAS).cdf_i 0 0 ≤ 1) :=
  ⟨zero_lt_one, zero_le_one,
    (kumaraswami_inverted_branch _ 0 0 zero_lt_one).1 zero_le_one⟩

/-- C2, counterexample: the inverted-range Kumaraswamy instance
`ST_min = 1, ST_max = 0, a = 2, b = 2` is not monotone: at `ST = 2` the
CDF equals 1 but at `ST = 3` it equals -8 (numpy computes the same values,
the exponents being integer-valued). -/
theorem kumaraswami_inverted_not_monotone :
    (2:ℝ) < 3 ∧
    (⟨fun _ => 1, fun _ => 0, fun _ => 2, fun _ => 2⟩ : _kumaraswami_rSAS).cdf_i 3 0 <
      (⟨fun _ => 1, fun _ => 0, fun _ => 2, fun _ => 2⟩ : _kumaraswami_rSAS).cdf_i 2 0 := by
  have h3 : (⟨fun _ => 1, fun _ => 0, fun _ => 2, fun _ => 2⟩ : _kumaraswami_rSAS).cdf_i 3 0 = -8 := by
    unfold _kumaraswami_rSAS.cdf_i
    dsimp only
    rw [if_neg (by norm_num), if_pos (by norm_num)]
    rw [show ((3:ℝ) - 1) / (0 - 1) = -2 by norm_num, Real.rpow_two, Real.rpow_two]
    norm_num
  have h2 : (⟨fun _ => 1, fun _ => 0, fun _ => 2, fun _ => 2⟩ : _kumaraswami_rSAS).cdf_i 2 0 = 1 := by
    unfold _kumaraswami_rSAS.cdf_i
    dsimp only
    rw [if_neg (by norm_num), if_pos (by norm_num)]
    rw [show ((2:ℝ) - 1) / (0 - 1) = -1 by norm_num, Real.rpow_two, Real.rpow_two]
    norm_num
  exact ⟨by norm_num, by rw [h2, h3]; norm_num⟩

/-- C1, counterexample: the invgauss variant does not return 0 below its
lower bound `loc`: with `loc = scale = mu = 1` and `ST = 0 < loc`, the
code takes the square root of a negative number; under numpy the result is
NaN, and under the Mathlib idealisation (square root of a negative is 0,
division by 0 is 0) it is `(1 + exp 2)/2` — in neither semantics is it 0.
(Its `cdf_all` does not even exist: it raises `NotImplementedError`.) -/
theorem invgauss_cdf_below_support_ne_zero :
    (⟨fun _ => 1, fun _ => 1, fun _ => 1⟩ : _invgauss_rSAS).cdf_i 0 0 =
      (1 + Real.exp 2) / 2 ∧
    (⟨fun _ => 1, fun _ => 1, fun _ => 1⟩ : _invgauss_rSAS).cdf_i 0 0 ≠ 0 := by
  have herf0 : erf 0 = 0 := by
    unfold erf; rw [intervalIntegral.integral_same]; ring
  have herfc0 : erfc 0 = 1 := by unfold erfc; rw [herf0]; ring
  have h : (⟨fun _ => 1, fun _ => 1, fun _ => 1⟩ : _invgauss_rSAS).cdf_i 0 0 =
      (1 + Real.exp 2) / 2 := by
    unfold _invgauss_rSAS.cdf_i
    dsimp only
    rw [show ((0:ℝ) - 1) / 1 = -1 by norm_num]
    rw [show (2:ℝ) * (-1) = -2 by norm_num]
    rw [Real.sqrt_eq_zero_of_nonpos (by norm_num), zero_mul, div_zero, div_zero, herfc0]
    norm_num
  refine ⟨h, by rw [h]; positivity⟩

/-- C1, amended: for the uniform, Kumaraswamy (non-inverted valid rows,
`ST_min < ST_max`) and gamma variants, both `cdf_all` and `cdf_i` return 0
at and below the lower bound `ST_min` and 1 at and above the upper bound
`ST_max` (for gamma, at a finite `ST_max`): the boundary comparisons are
strict, so `ST = ST_min` gives 0 and `ST = ST_max` gives 1. -/
theorem boundary_clamp_uniform_gamma_kumaraswami :
    (∀ (f : _uniform_rSAS) (i : ℕ) (ST : ℝ), f.ST_min i < f.ST_max i →
      (ST ≤ f.ST_min i → f.cdf_i ST i = 0) ∧ (f.ST_max i ≤ ST → f.cdf_i ST i = 1)) ∧
    (∀ (f : _uniform_rSAS) (ST : ℕ → ℝ) (i : ℕ), f.ST_min i < f.ST_max i →
      (ST i ≤ f.ST_min i → f.cdf_all ST i = 0) ∧ (f.ST_max i ≤ ST i → f.cdf_all ST i = 1)) ∧
    (∀ (f : _kumaraswami_rSAS) (i : ℕ) (ST : ℝ), f.ST_min i < f.ST_max i →
      (ST ≤ f.ST_min i → f.cdf_i ST i = 0) ∧ (f.ST_max i ≤ ST → f.cdf_i ST i = 1)) ∧
    (∀ (f : _kumaraswami_rSAS) (ST : ℕ → ℝ) (i : ℕ), f.ST_min i < f.ST_max i →
      (ST i ≤ f.ST_min i → f.cdf_all ST i = 0) ∧ (f.ST_max i ≤ ST i → f.cdf_all ST i = 1)) ∧
    (∀ (f : _gamma_rSAS) (i : ℕ) (ST : ℝ),
      (ST ≤ f.ST_min i → f.cdf_i ST i = 0) ∧
      (∀ m : ℝ, f.ST_max i = (m : EReal) → f.ST_min i < m → m ≤ ST → f.cdf_i ST i = 1)) ∧
    (∀ (f : _gamma_rSAS) (ST : ℕ → ℝ) (i : ℕ),
      (ST i ≤ f.ST_min i → f.cdf_all ST i = 0) ∧
      (∀ m : ℝ, f.ST_max i = (m : EReal) → f.ST_min i < m → m ≤ ST i → f.cdf_all ST i = 1)) := by
  refine ⟨fun f i ST hmm => ⟨fun h => ?_, fun h => ?_⟩,
    fun f ST i hmm => ⟨fun h => ?_, fun h => ?_⟩,
    fun f i ST hmm => ⟨fun h => ?_, fun h => ?_⟩,
    fun f ST i hmm => ⟨fun h => ?_, fun h => ?_⟩,
    fun f i ST => ⟨fun h => ?_, fun m heq hm h => ?_⟩,
    fun f ST i => ⟨fun h => ?_, fun m heq hm h => ?_⟩⟩
  · unfold _uniform_rSAS.cdf_i
    rw [if_pos (lt_of_le_of_lt h hmm), if_neg (not_lt.mpr h)]
  · unfold _uniform_rSAS.cdf_i
    rw [if_neg (not_lt.mpr h)]
  · unfold _uniform_rSAS.cdf_all
    rw [if_pos (lt_of_le_of_lt h hmm), if_neg (not_lt.mpr h)]
  · unfold _uniform_rSAS.cdf_all
    rw [if_neg (not_lt.mpr h)]
  · unfold _kumaraswami_rSAS.cdf_i
    rw [if_pos hmm.le, if_neg (not_lt.mpr h)]
  · unfold _kumaraswami_rSAS.cdf_i
    rw [if_pos hmm.le, if_pos (lt_of_lt_of_le hmm h), if_neg (not_lt.mpr h)]
  · unfold _kumaraswami_rSAS.cdf_all
    rw [if_pos hmm.le, if_neg (not_lt.mpr h)]
  · unfold _kumaraswami_rSAS.cdf_all
    rw [if_pos hmm.le, if_pos (lt_of_lt_of_le hmm h), if_neg (not_lt.mpr h)]
  · unfold _gamma_rSAS.cdf_i
    rw [if_neg (not_lt.mpr h)]
  · unfold _gamma_rSAS.cdf_i
    rw [heq, if_pos (lt_of_lt_of_le hm h),
      if_neg (not_lt.mpr (EReal.coe_le_coe_iff.mpr h))]
  · unfold _gamma_rSAS.cdf_all
    rw [if_neg (not_lt.mpr h)]
  · unfold _gamma_rSAS.cdf_all
    rw [heq, if_pos (lt_of_lt_of_le hm h),
      if_neg (not_lt.mpr (EReal.coe_le_coe_iff.mpr h))]

/-- Witness for C1 at concrete instances: the uniform row `[0, 10]` gives
`cdf_i 0 = 0` and `cdf_i 10 = 1`, and a gamma row with finite
`ST_max = 1 > ST_min = 0` gives `cdf_i 1 = 1`. -/
theorem boundary_clamp_witness :
    ((0:ℝ) < 10) ∧
    (⟨fun _ => 0, fun _ => 10⟩ : _uniform_rSAS).cdf_i 0 0 = 0 ∧
    (⟨fun _ => 0, fun _ => 10⟩ : _uniform_rSAS).cdf_i 10 0 = 1 ∧
    (⟨fun _ => 0, fun _ => ((1:ℝ) : EReal), fun _ => 1, fun _ => 1⟩ : _gamma_rSAS).cdf_i 1 0 = 1 :=
  ⟨by norm_num,
    (boundary_clamp_uniform_gamma_kumaraswami.1 _ 0 0 (by norm_num)).1 (le_refl _),
    (boundary_clamp_uniform_gamma_kumaraswami.1 _ 0 10 (by norm_num)).2 (le_refl _),
    (boundary_clamp_uniform_gamma_kumaraswami.2.2.2.2.1 _ 0 1).2 1 rfl zero_lt_one (le_refl _)⟩

/-- Helper: the gamma integrand is nonnegative for nonnegative arguments. -/
theorem gammaIntegrand_nonneg (a : ℝ) {t : ℝ} (ht : 0 ≤ t) :
    0 ≤ Real.exp (-t) * t ^ (a - 1) :=
  mul_nonneg (Real.exp_pos _).le (Real.rpow_nonneg ht _)

/-- Helper: the gamma integrand is positive for positive arguments. -/
theorem gammaIntegrand_pos (a : ℝ) {t : ℝ} (ht : 0 < t) :
    0 < Real.exp (-t) * t ^ (a - 1) :=
  mul_pos (Real.exp_pos _) (Real.rpow_pos_of_pos ht _)

/-- Helper: the gamma integrand is interval integrable between nonnegative
endpoints when the shape parameter is positive. -/
theorem gammaIntegrand_intervalIntegrable {a : ℝ} (ha : 0 < a) {x y : ℝ}
    (hx : 0 ≤ x) (hy : 0 ≤ y) :
    IntervalIntegrable (fun t => Real.exp (-t) * t ^ (a - 1)) volume x y := by
  rw [intervalIntegrable_iff]
  refine (Real.GammaIntegral_convergent ha).mono_set ?_
  intro t ht
  exact lt_of_le_of_lt (le_min hx hy) ht.1

/-- Helper: the partial gamma integral vanishes at 0. -/
theorem lowerGamma_zero (a : ℝ) : lowerGamma a 0 = 0 := by
  unfold lowerGamma
  exact intervalIntegral.integral_same

/-- Helper: the partial gamma integral is nonnegative on nonnegative
arguments. -/
theorem lowerGamma_nonneg {a : ℝ} (_ha : 0 < a) {x : ℝ} (hx : 0 ≤ x) :
    0 ≤ lowerGamma a x := by
  unfold lowerGamma
  exact intervalIntegral.integral_nonneg hx fun u hu => gammaIntegrand_nonneg a hu.1

/-- Helper: the partial gamma integral is monotone on nonnegative
arguments. -/
theorem lowerGamma_mono {a : ℝ} (ha : 0 < a) {x y : ℝ} (hx : 0 ≤ x) (hxy : x ≤ y) :
    lowerGamma a x ≤ lowerGamma a y := by
  have hy : 0 ≤ y := hx.trans hxy
  have hadd := intervalIntegral.integral_add_adjacent_intervals
    (gammaIntegrand_intervalIntegrable ha le_rfl hx)
    (gammaIntegrand_intervalIntegrable ha hx hy)
  have hpos : 0 ≤ ∫ t in x..y, Real.exp (-t) * t ^ (a - 1) :=
    intervalIntegral.integral_nonneg hxy fun u hu => gammaIntegrand_nonneg a (hx.trans hu.1)
  unfold lowerGamma
  rw [← hadd]
  linarith

/-- Helper: the partial gamma integral is strictly monotone on nonnegative
arguments. -/
theorem lowerGamma_strictMonoOn {a : ℝ} (ha : 0 < a) {x y : ℝ} (hx : 0 ≤ x) (hxy : x < y) :
    lowerGamma a x < lowerGamma a y := by
  have hy : 0 ≤ y := hx.trans hxy.le
  have hadd := intervalIntegral.integral_add_adjacent_intervals
    (gammaIntegrand_intervalIntegrable ha le_rfl hx)
    (gammaIntegrand_intervalIntegrable ha hx hy)
  have hpos : 0 < ∫ t in x..y, Real.exp (-t) * t ^ (a - 1) :=
    intervalIntegral.intervalIntegral_pos_of_pos_on
      (gammaIntegrand_intervalIntegrable ha hx hy)
      (fun t ht => gammaIntegrand_pos a (hx.trans_lt ht.1)) hxy
  unfold lowerGamma
  rw [← hadd]
  linarith

/-- Helper: the partial gamma integral on a nonnegative argument is at most
the full gamma integral. -/
theorem lowerGamma_le_Gamma {a : ℝ} (ha : 0 < a) {x : ℝ} (hx : 0 ≤ x) :
    lowerGamma a x ≤ Real.Gamma a := by
  rw [Real.Gamma_eq_integral ha]
  unfold lowerGamma
  rw [intervalIntegral.integral_of_le hx]
  refine setIntegral_mono_set (Real.GammaIntegral_convergent ha) ?_ ?_
  · exact (ae_restrict_iff' measurableSet_Ioi).mpr
      (ae_of_all _ fun t ht => gammaIntegrand_nonneg a (le_of_lt ht))
  · exact HasSubset.Subset.eventuallyLE Ioc_subset_Ioi_self

/-- Helper: the partial gamma integral converges to `Γ a` at infinity. -/
theorem lowerGamma_tendsto_Gamma {a : ℝ} (ha : 0 < a) :
    Tendsto (lowerGamma a) atTop (𝓝 (Real.Gamma a)) := by
  rw [Real.Gamma_eq_integral ha]
  unfold lowerGamma
  exact intervalIntegral_tendsto_integral_Ioi 0
    (Real.GammaIntegral_convergent ha) tendsto_id

/-- Helper: `gammainc a 0 = 0`. -/
theorem gammainc_zero (a : ℝ) : gammainc a 0 = 0 := by
  unfold gammainc
  rw [lowerGamma_zero]
  exact zero_div _

/-- Helper: `gammainc` is nonnegative on nonnegative arguments. -/
theorem gammainc_nonneg {a : ℝ} (ha : 0 < a) {x : ℝ} (hx : 0 ≤ x) :
    0 ≤ gammainc a x :=
  div_nonneg (lowerGamma_nonneg ha hx) (Real.Gamma_pos_of_pos ha).le

/-- Helper: `gammainc` is positive on positive arguments. -/
theorem gammainc_pos {a : ℝ} (ha : 0 < a) {x : ℝ} (hx : 0 < x) :
    0 < gammainc a x := by
  unfold gammainc
  refine div_pos ?_ (Real.Gamma_pos_of_pos ha)
  have := lowerGamma_strictMonoOn ha le_rfl hx
  rwa [lowerGamma_zero] at this

/-- Helper: the regularized incomplete gamma is at most 1 on nonnegative
arguments. -/
theorem gammainc_le_one {a : ℝ} (ha : 0 < a) {x : ℝ} (hx : 0 ≤ x) :
    gammainc a x ≤ 1 := by
  unfold gammainc
  rw [div_le_one (Real.Gamma_pos_of_pos ha)]
  exact lowerGamma_le_Gamma ha hx

/-- Helper: `gammainc` is monotone on nonnegative arguments. -/
theorem gammainc_mono {a : ℝ} (ha : 0 < a) {x y : ℝ} (hx : 0 ≤ x) (hxy : x ≤ y) :
    gammainc a x ≤ gammainc a y := by
  unfold gammainc
  exact (div_le_div_iff_of_pos_right (Real.Gamma_pos_of_pos ha)).mpr (lowerGamma_mono ha hx hxy)

/-- Helper: `gammainc` is strictly monotone on nonnegative arguments. -/
theorem gammainc_strictMono {a : ℝ} (ha : 0 < a) {x y : ℝ} (hx : 0 ≤ x) (hxy : x < y) :
    gammainc a x < gammainc a y := by
  unfold gammainc
  exact (div_lt_div_iff_of_pos_right (Real.Gamma_pos_of_pos ha)).mpr (lowerGamma_strictMonoOn ha hx hxy)

/-- Helper: `gammainc a` is continuous on `[0, M]`. -/
theorem gammainc_continuousOn {a M : ℝ} (ha : 0 < a) (hM : 0 ≤ M) :
    ContinuousOn (gammainc a) (Icc 0 M) := by
  have h1 : ContinuousOn (lowerGamma a) (Icc 0 M) := by
    unfold lowerGamma
    rw [← uIcc_of_le hM]
    exact intervalIntegral.continuousOn_primitive_interval'
      (gammaIntegrand_intervalIntegrable ha le_rfl hM) left_mem_uIcc
  unfold gammainc
  exact h1.div_const _

/-- Helper: `gammainc a` tends to 1 at infinity. -/
theorem gammainc_tendsto_one {a : ℝ} (ha : 0 < a) :
    Tendsto (gammainc a) atTop (𝓝 1) := by
  have h := (lowerGamma_tendsto_Gamma ha).div_const (Real.Gamma a)
  rw [div_self (Real.Gamma_pos_of_pos ha).ne'] at h
  exact h

/-- Helper: every `p` between 0 and `gammainc a M` is attained by
`gammainc a` on `[0, M]` (intermediate value theorem). -/
theorem exists_gammainc_eq {a M p : ℝ} (ha : 0 < a) (hM : 0 ≤ M)
    (hp0 : 0 ≤ p) (hpM : p ≤ gammainc a M) :
    ∃ x, 0 ≤ x ∧ gammainc a x = p := by
  have hIcc := intermediate_value_Icc hM (gammainc_continuousOn ha hM)
  have hp : p ∈ Icc (gammainc a 0) (gammainc a M) := by
    rw [gammainc_zero]
    exact ⟨hp0, hpM⟩
  obtain ⟨x, hx, hGx⟩ := hIcc hp
  exact ⟨x, hx.1, hGx⟩

/-- Helper: every `p ∈ [0, 1)` is attained by `gammainc a` on `[0, ∞)`. -/
theorem exists_gammainc_eq_of_lt_one {a p : ℝ} (ha : 0 < a)
    (hp0 : 0 ≤ p) (hp1 : p < 1) :
    ∃ x, 0 ≤ x ∧ gammainc a x = p := by
  obtain ⟨M, hM1, hM0⟩ :=
    (((gammainc_tendsto_one ha).eventually_const_lt hp1).and (eventually_ge_atTop 0)).exists
  exact exists_gammainc_eq ha hM0 hp0 hM1.le

/-- Helper: the defining property of `gammaincinv` when a nonnegative
preimage exists. -/
theorem gammaincinv_spec (a p : ℝ) (h : ∃ x, 0 ≤ x ∧ gammainc a x = p) :
    0 ≤ gammaincinv a p ∧ gammainc a (gammaincinv a p) = p := by
  unfold gammaincinv
  rw [dif_pos h]
  exact h.choose_spec

/-- Helper: `gammaincinv` of a positive value is positive. -/
theorem gammaincinv_pos {a p : ℝ} (h : ∃ x, 0 ≤ x ∧ gammainc a x = p)
    (hp : 0 < p) : 0 < gammaincinv a p := by
  obtain ⟨hge, heq⟩ := gammaincinv_spec a p h
  rcases hge.lt_or_eq with hlt | hzero
  · exact hlt
  · rw [← hzero, gammainc_zero] at heq
    exact absurd heq.symm hp.ne'

/-- Helper: `gammaincinv a p < M` whenever `p < gammainc a M`. -/
theorem gammaincinv_lt {a p M : ℝ} (ha : 0 < a)
    (h : ∃ x, 0 ≤ x ∧ gammainc a x = p) (hM : 0 ≤ M)
    (hlt : p < gammainc a M) : gammaincinv a p < M := by
  obtain ⟨hge, heq⟩ := gammaincinv_spec a p h
  by_contra hc
  push_neg at hc
  have := gammainc_mono ha hM hc
  rw [heq] at this
  exact absurd (lt_of_le_of_lt this hlt) (lt_irrefl _)

/-- C3: for the gamma variant, a finite `ST_max` (with a valid row,
`ST_min < ST_max`) gives `cdf_i ST_max i = 1` exactly; an infinite
`ST_max` gives `rescale i = 1`; and `rescale` is a function of the stored
parameter row only (it never depends on a queried storage value). -/
theorem gamma_truncation_rescale :
    (∀ (f : _gamma_rSAS) (i : ℕ) (m : ℝ), f.ST_max i = (m : EReal) → f.ST_min i < m →
      f.cdf_i m i = 1) ∧
    (∀ (f : _gamma_rSAS) (i : ℕ), f.ST_max i = ⊤ → f.rescale i = 1) ∧
    (∀ (f g : _gamma_rSAS) (i : ℕ), f.ST_min i = g.ST_min i → f.ST_max i = g.ST_max i →
      f.scale i = g.scale i → f.a i = g.a i → f.rescale i = g.rescale i) := by
  refine ⟨fun f i m heq hm => ?_, fun f i htop => ?_, fun f g i h1 h2 h3 h4 => ?_⟩
  · unfold _gamma_rSAS.cdf_i
    rw [heq, if_pos hm, if_neg (lt_irrefl ((m : ℝ) : EReal))]
  · unfold _gamma_rSAS.rescale
    rw [if_neg (fun hc => hc.1 htop)]
  · unfold _gamma_rSAS.rescale _gamma_rSAS.lam
    rw [h1, h2, h3, h4]

/-- Witness for C3: a gamma row with `ST_min = 0`, finite `ST_max = 1`,
`scale = 1`, `a = 2` has `cdf_i 1 = 1`; the same row with `ST_max = ∞` has
`rescale = 1`; and `rescale` agrees on two instances holding equal
parameter rows. -/
theorem gamma_truncation_rescale_witness :
    ((0:ℝ) < 1) ∧
    (⟨fun _ => 0, fun _ => ((1:ℝ) : EReal), fun _ => 1, fun _ => 2⟩ : _gamma_rSAS).cdf_i 1 0 = 1 ∧
    (⟨fun _ => 0, fun _ => ⊤, fun _ => 1, fun _ => 2⟩ : _gamma_rSAS).rescale 0 = 1 ∧
    (⟨fun _ => 0, fun _ => ⊤, fun _ => 1, fun _ => 2⟩ : _gamma_rSAS).rescale 0 =
      (⟨fun _ => 0, fun _ => ⊤, fun _ => 1, fun _ => 2⟩ : _gamma_rSAS).rescale 0 :=
  ⟨zero_lt_one,
    gamma_truncation_rescale.1 _ 0 1 rfl zero_lt_one,
    gamma_truncation_rescale.2.1 _ 0 rfl,
    gamma_truncation_rescale.2.2 _ _ 0 rfl rfl rfl rfl⟩

/-- C4: for the uniform and gamma variants, `invcdf_i` is a right inverse
of `cdf_i` on `P ∈ (0, 1)` (exactly, in the real-number idealisation):
for uniform this needs a valid row `ST_min < ST_max`, for gamma a positive
shape and scale and `ST_min < ST_max` (with `ST_max` possibly `+∞`). -/
theorem invcdf_roundtrip :
    (∀ (f : _uniform_rSAS) (i : ℕ) (P : ℝ), 0 < P → P < 1 →
      f.ST_min i < f.ST_max i →
      f.cdf_i (f.invcdf_i P i) i = P) ∧
    (∀ (f : _gamma_rSAS) (i : ℕ) (P : ℝ), 0 < P → P < 1 →
      0 < f.a i → 0 < f.scale i →
      (∀ m : ℝ, f.ST_max i = (m : EReal) → f.ST_min i < m) →
      f.ST_max i ≠ ⊥ →
      ∃ x : ℝ, f.invcdf_i P i = FloatE.fin x ∧ f.cdf_i x i = P) := by
  constructor
  · intro f i P hP0 hP1 hmm
    have hdpos : 0 < f.ST_max i - f.ST_min i := sub_pos.mpr hmm
    have hx : f.invcdf_i P i = P * (f.ST_max i - f.ST_min i) + f.ST_min i := by
      unfold _uniform_rSAS.invcdf_i _uniform_rSAS.lam
      rw [if_pos hP1, if_pos hP0, one_div, div_inv_eq_mul]
    rw [hx]
    unfold _uniform_rSAS.cdf_i _uniform_rSAS.lam
    rw [if_pos (by nlinarith [mul_pos (sub_pos.mpr hP1) hdpos]),
      if_pos (by nlinarith [mul_pos hP0 hdpos])]
    field_simp
  · intro f i P hP0 hP1 ha hs hfin hbot
    have hlam : 0 < f.lam i := by unfold _gamma_rSAS.lam; positivity
    by_cases htop : f.ST_max i = ⊤
    · have hres : f.rescale i = 1 := by
        unfold _gamma_rSAS.rescale
        rw [if_neg (fun hc => hc.1 htop)]
      have hex : ∃ x, 0 ≤ x ∧ gammainc (f.a i) x = P :=
        exists_gammainc_eq_of_lt_one ha hP0.le hP1
      obtain ⟨hge, heq⟩ := gammaincinv_spec (f.a i) P hex
      have hxpos : 0 < gammaincinv (f.a i) P := gammaincinv_pos hex hP0
      refine ⟨gammaincinv (f.a i) P / f.lam i + f.ST_min i, ?_, ?_⟩
      · unfold _gamma_rSAS.invcdf_i
        rw [if_pos hP0, if_pos hP1, hres, div_one]
        simp [FloatE.divR, FloatE.addR]
      · unfold _gamma_rSAS.cdf_i
        rw [htop, if_pos (by linarith [div_pos hxpos hlam]),
          if_pos (EReal.coe_lt_top _), hres, mul_one]
        rw [show f.lam i * (gammaincinv (f.a i) P / f.lam i + f.ST_min i - f.ST_min i)
            = gammaincinv (f.a i) P by field_simp; ring]
        exact heq
    · obtain ⟨m, hm_eq⟩ : ∃ m : ℝ, f.ST_max i = (m : EReal) :=
        ⟨(f.ST_max i).toReal, (EReal.coe_toReal htop hbot).symm⟩
      have hm : f.ST_min i < m := hfin m hm_eq
      set M := f.lam i * (m - f.ST_min i) with hM_def
      have hMpos : 0 < M := mul_pos hlam (sub_pos.mpr hm)
      set g := gammainc (f.a i) M with hg_def
      have hgpos : 0 < g := gammainc_pos ha hMpos
      have hgne : g ≠ 0 := hgpos.ne'
      have hres : f.rescale i = 1 / g := by
        unfold _gamma_rSAS.rescale
        rw [if_pos ⟨htop, hbot⟩, hm_eq, EReal.toReal_coe]
      have hp' : P / f.rescale i = P * g := by rw [hres, one_div, div_inv_eq_mul]
      have hp'0 : 0 < P * g := mul_pos hP0 hgpos
      have hp'g : P * g < g := by nlinarith
      have hex : ∃ x, 0 ≤ x ∧ gammainc (f.a i) x = P * g :=
        exists_gammainc_eq ha hMpos.le hp'0.le hp'g.le
      obtain ⟨hge, heq⟩ := gammaincinv_spec _ _ hex
      have hxpos : 0 < gammaincinv (f.a i) (P * g) := gammaincinv_pos hex hp'0
      have hxM : gammaincinv (f.a i) (P * g) < M :=
        gammaincinv_lt ha hex hMpos.le hp'g
      refine ⟨gammaincinv (f.a i) (P * g) / f.lam i + f.ST_min i, ?_, ?_⟩
      · unfold _gamma_rSAS.invcdf_i
        rw [if_pos hP0, if_pos hP1, hp']
        simp [FloatE.divR, FloatE.addR]
      · unfold _gamma_rSAS.cdf_i
        have hcond1 : gammaincinv (f.a i) (P * g) / f.lam i + f.ST_min i > f.ST_min i := by
          linarith [div_pos hxpos hlam]
        have hlt_m : gammaincinv (f.a i) (P * g) / f.lam i + f.ST_min i < m := by
          have h1 : gammaincinv (f.a i) (P * g) / f.lam i < M / f.lam i :=
            (div_lt_div_iff_of_pos_right hlam).mpr hxM
          have h2 : M / f.lam i = m - f.ST_min i := by
            rw [hM_def]; field_simp
          linarith
        rw [hm_eq, if_pos hcond1, if_pos (EReal.coe_lt_coe_iff.mpr hlt_m), hres]
        rw [show f.lam i * (gammaincinv (f.a i) (P * g) / f.lam i + f.ST_min i - f.ST_min i)
            = gammaincinv (f.a i) (P * g) by field_simp; ring]
        rw [heq]
        field_simp

/-- Witness for C4: the uniform row `[0, 1]` at `P = 1/2` round-trips
(`cdf_i (invcdf_i (1/2)) = 1/2`), and the gamma row
`ST_min = 0, ST_max = ∞, scale = 1, a = 1` at `P = 1/2` yields a finite
inverse whose CDF is `1/2`. -/
theorem invcdf_roundtrip_witness :
    ((0:ℝ) < 1/2) ∧ ((1:ℝ)/2 < 1) ∧ ((0:ℝ) < 1) ∧
    (⟨fun _ => 0, fun _ => 1⟩ : _uniform_rSAS).cdf_i
      ((⟨fun _ => 0, fun _ => 1⟩ : _uniform_rSAS).invcdf_i (1/2) 0) 0 = 1/2 ∧
    (∃ x : ℝ,
      (⟨fun _ => 0, fun _ => ⊤, fun _ => 1, fun _ => 1⟩ : _gamma_rSAS).invcdf_i (1/2) 0 =
        FloatE.fin x ∧
      (⟨fun _ => 0, fun _ => ⊤, fun _ => 1, fun _ => 1⟩ : _gamma_rSAS).cdf_i x 0 = 1/2) :=
  ⟨one_half_pos, one_half_lt_one, zero_lt_one,
    invcdf_roundtrip.1 _ 0 (1/2) one_half_pos one_half_lt_one zero_lt_one,
    invcdf_roundtrip.2 _ 0 (1/2) one_half_pos one_half_lt_one zero_lt_one zero_lt_one
      (fun m hm => (EReal.coe_ne_top m hm.symm).elim) top_ne_bot⟩

/-- Helper: with valid parameters the gamma rescale factor is positive. -/
theorem gamma_rescale_pos (f : _gamma_rSAS) (i : ℕ) (ha : 0 < f.a i) (hs : 0 < f.scale i)
    (hfin : ∀ m : ℝ, f.ST_max i = (m : EReal) → f.ST_min i < m) :
    0 < f.rescale i := by
  have hlam : 0 < f.lam i := by unfold _gamma_rSAS.lam; positivity
  unfold _gamma_rSAS.rescale
  by_cases hc : f.ST_max i ≠ ⊤ ∧ f.ST_max i ≠ ⊥
  · rw [if_pos hc]
    obtain ⟨m, hm_eq⟩ : ∃ m : ℝ, f.ST_max i = (m : EReal) :=
      ⟨(f.ST_max i).toReal, (EReal.coe_toReal hc.1 hc.2).symm⟩
    have hm := hfin m hm_eq
    rw [hm_eq, EReal.toReal_coe]
    have hg : 0 < gammainc (f.a i) (f.lam i * (m - f.ST_min i)) :=
      gammainc_pos ha (mul_pos hlam (sub_pos.mpr hm))
    exact one_div_pos.mpr hg
  · rw [if_neg hc]; norm_num

/-- Helper: the rescaled gamma CDF value is at most 1 inside a finite
truncated range. -/
theorem gamma_mid_le_one (f : _gamma_rSAS) (i : ℕ) (ha : 0 < f.a i) (hs : 0 < f.scale i)
    {m ST : ℝ} (hm_eq : f.ST_max i = (m : EReal)) (hminm : f.ST_min i < m)
    (h1 : f.ST_min i < ST) (h2 : ST ≤ m) :
    gammainc (f.a i) (f.lam i * (ST - f.ST_min i)) * f.rescale i ≤ 1 := by
  have hlam : 0 < f.lam i := by unfold _gamma_rSAS.lam; positivity
  have hres : f.rescale i = 1 / gammainc (f.a i) (f.lam i * (m - f.ST_min i)) := by
    unfold _gamma_rSAS.rescale
    rw [if_pos ⟨by rw [hm_eq]; exact EReal.coe_ne_top m,
      by rw [hm_eq]; exact EReal.coe_ne_bot m⟩, hm_eq, EReal.toReal_coe]
  have hMpos : 0 < f.lam i * (m - f.ST_min i) := mul_pos hlam (sub_pos.mpr hminm)
  have hgpos := gammainc_pos ha hMpos
  have hmono : gammainc (f.a i) (f.lam i * (ST - f.ST_min i)) ≤
      gammainc (f.a i) (f.lam i * (m - f.ST_min i)) :=
    gammainc_mono ha (mul_nonneg hlam.le (by linarith))
      (mul_le_mul_of_nonneg_left (by linarith) hlam.le)
  rw [hres, mul_one_div, div_le_one hgpos]
  exact hmono

/-- Helper: the Kumaraswamy core expression is nonnegative for a base in
`[0, 1]` and nonnegative exponents. -/
theorem kum_core_nonneg {u a b : ℝ} (ha : 0 ≤ a) (hb : 0 ≤ b)
    (hu0 : 0 ≤ u) (hu1 : u ≤ 1) :
    0 ≤ 1 - (1 - u ^ a) ^ b := by
  have h1 : u ^ a ≤ 1 := Real.rpow_le_one hu0 hu1 ha
  have h2 : (0:ℝ) ≤ u ^ a := Real.rpow_nonneg hu0 a
  have h3 : (1 - u ^ a) ^ b ≤ 1 := Real.rpow_le_one (by linarith) (by linarith) hb
  linarith

/-- Helper: the Kumaraswamy core expression is at most 1 for a base in
`[0, 1]` and nonnegative exponents. -/
theorem kum_core_le_one {u a b : ℝ} (ha : 0 ≤ a) (_hb : 0 ≤ b)
    (hu0 : 0 ≤ u) (hu1 : u ≤ 1) :
    1 - (1 - u ^ a) ^ b ≤ 1 := by
  have h1 : u ^ a ≤ 1 := Real.rpow_le_one hu0 hu1 ha
  have h3 : (0:ℝ) ≤ (1 - u ^ a) ^ b := Real.rpow_nonneg (by linarith) b
  linarith

/-- Helper: the Kumaraswamy core expression is monotone in the base on
`[0, 1]` for nonnegative exponents. -/
theorem kum_core_mono {u v a b : ℝ} (ha : 0 ≤ a) (hb : 0 ≤ b)
    (hu0 : 0 ≤ u) (huv : u ≤ v) (hv1 : v ≤ 1) :
    1 - (1 - u ^ a) ^ b ≤ 1 - (1 - v ^ a) ^ b := by
  have h1 : u ^ a ≤ v ^ a := Real.rpow_le_rpow hu0 huv ha
  have hva : v ^ a ≤ 1 := Real.rpow_le_one (hu0.trans huv) hv1 ha
  have h2 : (1 - v ^ a) ^ b ≤ (1 - u ^ a) ^ b :=
    Real.rpow_le_rpow (by linarith) (by linarith) hb
  linarith

/-- C2, amended: `cdf_i` is monotone non-decreasing in `ST` for fixed `i`
for the uniform variant (any parameters), the gamma variant (valid rows:
positive shape and scale, `ST_min < ST_max`), and the Kumaraswamy variant
on valid non-inverted rows (`ST_min < ST_max`, positive `a` and `b`); the
inverted-range Kumaraswamy case violates monotonicity. -/
theorem cdf_i_monotone_uniform_gamma_kumaraswami :
    (∀ (f : _uniform_rSAS) (i : ℕ) (ST1 ST2 : ℝ), ST1 < ST2 →
      f.cdf_i ST1 i ≤ f.cdf_i ST2 i) ∧
    (∀ (f : _gamma_rSAS) (i : ℕ), 0 < f.a i → 0 < f.scale i →
      (∀ m : ℝ, f.ST_max i = (m : EReal) → f.ST_min i < m) →
      ∀ ST1 ST2 : ℝ, ST1 < ST2 → f.cdf_i ST1 i ≤ f.cdf_i ST2 i) ∧
    (∀ (f : _kumaraswami_rSAS) (i : ℕ), f.ST_min i < f.ST_max i →
      0 < f.a i → 0 < f.b i →
      ∀ ST1 ST2 : ℝ, ST1 < ST2 → f.cdf_i ST1 i ≤ f.cdf_i ST2 i) := by
  refine ⟨fun f i ST1 ST2 h12 => ?_, fun f i ha hs hfin ST1 ST2 h12 => ?_,
    fun f i hmm ha hb ST1 ST2 h12 => ?_⟩
  · unfold _uniform_rSAS.cdf_i _uniform_rSAS.lam
    by_cases h2max : ST2 < f.ST_max i
    · rw [if_pos (h12.trans h2max), if_pos h2max]
      by_cases h2min : ST2 > f.ST_min i
      · rw [if_pos h2min]
        have hdpos : 0 < f.ST_max i - f.ST_min i := sub_pos.mpr (h2min.trans h2max)
        by_cases h1min : ST1 > f.ST_min i
        · rw [if_pos h1min]
          exact mul_le_mul_of_nonneg_left (by linarith) (one_div_nonneg.mpr hdpos.le)
        · rw [if_neg h1min]
          exact mul_nonneg (one_div_nonneg.mpr hdpos.le) (by linarith)
      · rw [if_neg h2min, if_neg (show ¬(ST1 > f.ST_min i) by push_neg at h2min ⊢; linarith)]
    · rw [if_neg h2max]
      by_cases h1max : ST1 < f.ST_max i
      · rw [if_pos h1max]
        by_cases h1min : ST1 > f.ST_min i
        · rw [if_pos h1min]
          have hdpos : 0 < f.ST_max i - f.ST_min i := sub_pos.mpr (h1min.trans h1max)
          calc 1 / (f.ST_max i - f.ST_min i) * (ST1 - f.ST_min i)
              ≤ 1 / (f.ST_max i - f.ST_min i) * (f.ST_max i - f.ST_min i) :=
                mul_le_mul_of_nonneg_left (by linarith) (one_div_nonneg.mpr hdpos.le)
            _ = 1 := by field_simp
        · rw [if_neg h1min]; norm_num
      · rw [if_neg h1max]
  · have hlam : 0 < f.lam i := by unfold _gamma_rSAS.lam; positivity
    have hrpos := gamma_rescale_pos f i ha hs hfin
    unfold _gamma_rSAS.cdf_i
    by_cases h1min : ST1 > f.ST_min i
    · have h2min : ST2 > f.ST_min i := h1min.trans h12
      rw [if_pos h1min, if_pos h2min]
      by_cases h2max : (ST2 : EReal) < f.ST_max i
      · rw [if_pos h2max,
          if_pos (lt_trans (EReal.coe_lt_coe_iff.mpr h12) h2max)]
        refine mul_le_mul_of_nonneg_right ?_ hrpos.le
        exact gammainc_mono ha (mul_nonneg hlam.le (by linarith))
          (mul_le_mul_of_nonneg_left (by linarith) hlam.le)
      · rw [if_neg h2max]
        by_cases h1max : (ST1 : EReal) < f.ST_max i
        · rw [if_pos h1max]
          have htop : f.ST_max i ≠ ⊤ := fun h => h2max (h ▸ EReal.coe_lt_top ST2)
          have hbot : f.ST_max i ≠ ⊥ := ne_bot_of_gt h1max
          obtain ⟨m, hm_eq⟩ : ∃ m : ℝ, f.ST_max i = (m : EReal) :=
            ⟨(f.ST_max i).toReal, (EReal.coe_toReal htop hbot).symm⟩
          have hm := hfin m hm_eq
          have h1m : ST1 < m := by
            rw [hm_eq] at h1max
            exact EReal.coe_lt_coe_iff.mp h1max
          exact gamma_mid_le_one f i ha hs hm_eq hm h1min h1m.le
        · rw [if_neg h1max]
    · rw [if_neg h1min]
      by_cases h2min : ST2 > f.ST_min i
      · rw [if_pos h2min]
        by_cases h2max : (ST2 : EReal) < f.ST_max i
        · rw [if_pos h2max]
          exact mul_nonneg (gammainc_nonneg ha (mul_nonneg hlam.le (by linarith)))
            hrpos.le
        · rw [if_neg h2max]; norm_num
      · rw [if_neg h2min]
  · have hd : 0 < f.ST_max i - f.ST_min i := sub_pos.mpr hmm
    unfold _kumaraswami_rSAS.cdf_i
    rw [if_pos hmm.le, if_pos hmm.le]
    by_cases h2min : ST2 > f.ST_min i
    · rw [if_pos h2min]
      by_cases h2max : ST2 < f.ST_max i
      · rw [if_pos h2max]
        have hu2_0 : 0 ≤ (ST2 - f.ST_min i) / (f.ST_max i - f.ST_min i) :=
          div_nonneg (by linarith) hd.le
        have hu2_1 : (ST2 - f.ST_min i) / (f.ST_max i - f.ST_min i) ≤ 1 :=
          (div_le_one hd).mpr (by linarith)
        by_cases h1min : ST1 > f.ST_min i
        · rw [if_pos h1min, if_pos (h12.trans h2max)]
          exact kum_core_mono ha.le hb.le (div_nonneg (by linarith) hd.le)
            ((div_le_div_iff_of_pos_right hd).mpr (by linarith)) hu2_1
        · rw [if_neg h1min]
          exact kum_core_nonneg ha.le hb.le hu2_0 hu2_1
      · rw [if_neg h2max]
        by_cases h1min : ST1 > f.ST_min i
        · by_cases h1max : ST1 < f.ST_max i
          · rw [if_pos h1min, if_pos h1max]
            exact kum_core_le_one ha.le hb.le (div_nonneg (by linarith) hd.le)
              ((div_le_one hd).mpr (by linarith))
          · rw [if_pos h1min, if_neg h1max]
        · rw [if_neg h1min]; norm_num
    · rw [if_neg h2min,
        if_neg (show ¬(ST1 > f.ST_min i) by push_neg at h2min ⊢; linarith)]

/-- Witness for C2 at concrete instances: the uniform row `[0, 1]`, the
gamma row `ST_min = 0, ST_max = ∞, scale = 1, a = 1`, and the Kumaraswamy
row `ST_min = 0, ST_max = 1, a = 2, b = 3`, each compared at
`ST1 = 0 < ST2 = 1`. -/
theorem cdf_i_monotone_witness :
    ((0:ℝ) < 1) ∧
    (⟨fun _ => 0, fun _ => 1⟩ : _uniform_rSAS).cdf_i 0 0 ≤
      (⟨fun _ => 0, fun _ => 1⟩ : _uniform_rSAS).cdf_i 1 0 ∧
    (⟨fun _ => 0, fun _ => ⊤, fun _ => 1, fun _ => 1⟩ : _gamma_rSAS).cdf_i 0 0 ≤
      (⟨fun _ => 0, fun _ => ⊤, fun _ => 1, fun _ => 1⟩ : _gamma_rSAS).cdf_i 1 0 ∧
    (⟨fun _ => 0, fun _ => 1, fun _ => 2, fun _ => 3⟩ : _kumaraswami_rSAS).cdf_i 0 0 ≤
      (⟨fun _ => 0, fun _ => 1, fun _ => 2, fun _ => 3⟩ : _kumaraswami_rSAS).cdf_i 1 0 :=
  ⟨zero_lt_one,
    cdf_i_monotone_uniform_gamma_kumaraswami.1 _ 0 0 1 zero_lt_one,
    cdf_i_monotone_uniform_gamma_kumaraswami.2.1 _ 0 zero_lt_one zero_lt_one
      (fun m hm => (EReal.coe_ne_top m hm.symm).elim) 0 1 zero_lt_one,
    cdf_i_monotone_uniform_gamma_kumaraswami.2.2 _ 0 zero_lt_one two_pos three_pos
      0 1 zero_lt_one⟩

end RSAS
